import Mathlib

/-!
# Verification of the jester gesture-whiteboard core

Shallow embedding of the core pipeline of the gesture-controlled whiteboard
(`src/gestures/GestureEngine.ts`, `src/whiteboard/WhiteboardEngine.ts`,
`src/handTracking/LandmarkSmoother.ts`, `src/sync/SyncClient.ts`).

Modelling conventions:
* IEEE-754 doubles are modelled as exact rationals (`ℚ`); all the arithmetic
  the verified properties depend on (linear combinations, divisions by
  nonzero clamped zoom values, comparisons) is exact-real.
* `Math.sqrt` has no exact rational counterpart.  Where the code only
  *compares* a square root against a bound (`sqrt d < r`), we embed the
  mathematically equivalent comparison on squares
  (`0 ≤ r ∧ d < r ^ 2`, for `d ≥ 0` a sum of squares).  Where the code
  *stores or combines* a square-root value (the gesture engine's
  `calculateDistance`), the embedding is parametric in an abstract
  square-root function `sqrtA : ℚ → ℚ`, and the theorems hold for every
  such function.
* JavaScript `Map` objects keyed by the two-valued handedness label are
  embedded as a pair of `Option` fields; `Map`s keyed by strings are
  embedded as association lists with JavaScript `Map` semantics
  (`set` replaces in place, `get` finds the first match).
* Nondeterministic inputs (`Date.now()`, `generateId()`) are parameters.
-/

namespace Jester

/-- 2D point (`Point` in `src/types/index.ts`). -/
structure Pt where
  x : ℚ
  y : ℚ
deriving DecidableEq

/-! ## GestureEngine: hysteresis (`GestureEngine.updateWithHysteresis`) -/

/-- One step of `GestureEngine.updateWithHysteresis`
(`src/gestures/GestureEngine.ts` lines 214-239).  Inputs: the raw detector
reading for this frame, the committed signal state, and this signal's frame
counter; output: the new committed state and counter. -/
def hysteresisStep (activationFrames deactivationFrames : ℕ)
    (detected active : Bool) (counter : ℕ) : Bool × ℕ :=
  if detected && !active then
    if counter ≥ activationFrames then (true, 0) else (false, counter + 1)
  else if !detected && active then
    if counter ≥ deactivationFrames then (false, 0) else (true, counter + 1)
  else (active, 0)

/-- Fold `hysteresisStep` over a sequence of raw detector readings. -/
def runHysteresis (aF dF : ℕ) (init : Bool × ℕ) (readings : List Bool) : Bool × ℕ :=
  readings.foldl (fun s d => hysteresisStep aF dF d s.1 s.2) init

/-! ## GestureEngine: gesture resolution (`GestureEngine.processHands`) -/

/-- `ActiveGesture` from `src/types/index.ts`. -/
inductive ActiveGesture
  | IDLE
  | DRAWING
  | PANNING
  | ZOOMING
  | ERASING
deriving DecidableEq

/-- `GestureEvent` from `src/types/index.ts` (one constructor per event kind). -/
inductive GestureEvent
  | drawStart (position : Pt)
  | drawMove (position : Pt)
  | drawEnd (position : Pt)
  | eraseEv (position : Pt) (radius : ℚ)
  | panEv (delta : Pt)
  | zoomEv (factor : ℚ) (center : Pt)
  | idle
deriving DecidableEq

/-- `GestureConfig` from `src/types/index.ts`; frame counts are naturals. -/
structure GestureConfig where
  pinchThreshold : ℚ
  palmOpenThreshold : ℚ
  eraseRadius : ℚ
  zoomSensitivity : ℚ
  smoothingFactor : ℚ
  activationFrames : ℕ
  deactivationFrames : ℕ
  panSensitivity : ℚ
  leftHandedMode : Bool
deriving DecidableEq

/-- The fields of `GestureState` (`src/types/index.ts`) that
`GestureEngine.processHands` reads and writes.  (The TS type also carries two
`activationFrames`/`deactivationFrames` fields that are initialised to 0 and
never read or written by the engine — the live counters are private class
fields, modelled in `hysteresisStep`; the dead state fields are omitted.) -/
structure GestureState where
  currentGesture : ActiveGesture
  rightPinching : Bool
  leftPinching : Bool
  rightPalmOpen : Bool
  leftPalmOpen : Bool
  lastRightPinchPos : Option Pt
  lastLeftPinchPos : Option Pt
  lastRightPalmPos : Option Pt
  lastLeftPalmPos : Option Pt
  lastPinchDistance : Option ℚ
deriving DecidableEq

/-- `GestureEngine.calculateDistance` (lines 295-297):
`Math.sqrt((p1.x-p2.x)^2 + (p1.y-p2.y)^2)`, with `Math.sqrt` abstracted as
`sqrtA`. -/
def calculateDistance (sqrtA : ℚ → ℚ) (p1 p2 : Pt) : ℚ :=
  sqrtA ((p1.x - p2.x) ^ 2 + (p1.y - p2.y) ^ 2)

/-- The per-frame inputs of the resolution part of
`GestureEngine.processHands` (the local variables available at line 110 of
`src/gestures/GestureEngine.ts`): the four committed (post-hysteresis)
boolean signals and the four optional positions of the current frame. -/
structure ResolveInput where
  rightPinching : Bool
  leftPinching : Bool
  rightPalmOpen : Bool
  leftPalmOpen : Bool
  rightPinchPos : Option Pt
  leftPinchPos : Option Pt
  rightPalmPos : Option Pt
  leftPalmPos : Option Pt
deriving DecidableEq

/-- The gesture-resolution and event-emission part of
`GestureEngine.processHands` (`src/gestures/GestureEngine.ts` lines
116-212), as a pure function from the previous `GestureState` and this
frame's committed signals/positions to the new state and the list of emitted
events, in emission order.  The priority chain (ZOOM > DRAW > ERASE > PAN >
IDLE), the left-handed role swap, the DRAW_END / IDLE transition emissions
and the zoom-baseline clearing follow the source line by line; a JS
truthiness test on a position becomes a `match` on the `Option`. -/
def resolveGesture (sqrtA : ℚ → ℚ) (cfg : GestureConfig) (st : GestureState)
    (inp : ResolveInput) : GestureState × List GestureEvent :=
  let previousGesture := st.currentGesture
  let isLeftHanded := cfg.leftHandedMode
  let drawPinching := if isLeftHanded then inp.leftPinching else inp.rightPinching
  let drawPinchPos := if isLeftHanded then inp.leftPinchPos else inp.rightPinchPos
  let erasePalmOpen := if isLeftHanded then inp.rightPalmOpen else inp.leftPalmOpen
  let erasePalmPos := if isLeftHanded then inp.rightPalmPos else inp.leftPalmPos
  let panPalmOpen := if isLeftHanded then inp.leftPalmOpen else inp.rightPalmOpen
  let panPalmPos := if isLeftHanded then inp.leftPalmPos else inp.rightPalmPos
  let panPinching := if isLeftHanded then inp.leftPinching else inp.rightPinching
  let lastPanPalmPos := if isLeftHanded then st.lastLeftPalmPos else st.lastRightPalmPos
  let lastDrawPinchPos := if isLeftHanded then st.lastLeftPinchPos else st.lastRightPinchPos
  -- Priority chain, lines 136-180.  Result: (newGesture, emitted events,
  -- value of lastPinchDistance after the chain).
  let chain : ActiveGesture × List GestureEvent × Option ℚ :=
    match (if inp.rightPinching && inp.leftPinching then inp.rightPinchPos else none),
          inp.leftPinchPos with
    | some rp, some lp =>
      -- Two-hand zoom branch (lines 136-151)
      let currentDistance := calculateDistance sqrtA rp lp
      let center : Pt := ⟨(rp.x + lp.x) / 2, (rp.y + lp.y) / 2⟩
      let evs :=
        match st.lastPinchDistance with
        | some prevD =>
          let factor := currentDistance / prevD
          let adjustedFactor := 1 + (factor - 1) * cfg.zoomSensitivity
          [GestureEvent.zoomEv adjustedFactor center]
        | none => []
      (ActiveGesture.ZOOMING, evs, some currentDistance)
    | _, _ =>
      match (if drawPinching then drawPinchPos else none) with
      | some p =>
        -- Draw branch (lines 152-160)
        if previousGesture = ActiveGesture.DRAWING then
          (ActiveGesture.DRAWING, [GestureEvent.drawMove p], st.lastPinchDistance)
        else
          (ActiveGesture.DRAWING, [GestureEvent.drawStart p], st.lastPinchDistance)
      | none =>
        match (if erasePalmOpen then erasePalmPos else none) with
        | some p =>
          -- Erase branch (lines 161-168)
          (ActiveGesture.ERASING, [GestureEvent.eraseEv p cfg.eraseRadius],
            st.lastPinchDistance)
        | none =>
          match (if panPalmOpen && !panPinching then panPalmPos else none) with
          | some p =>
            -- Pan branch (lines 169-180)
            let evs :=
              match lastPanPalmPos with
              | some lpp =>
                [GestureEvent.panEv ⟨(p.x - lpp.x) * cfg.panSensitivity,
                                     (p.y - lpp.y) * cfg.panSensitivity⟩]
              | none => []
            (ActiveGesture.PANNING, evs, st.lastPinchDistance)
          | none => (ActiveGesture.IDLE, [], st.lastPinchDistance)
  let newGesture := chain.1
  let branchEvents := chain.2.1
  let pinchDistAfterChain := chain.2.2
  -- Transition emissions (lines 183-192)
  let endEvents :=
    if previousGesture = ActiveGesture.DRAWING ∧ newGesture ≠ ActiveGesture.DRAWING then
      match lastDrawPinchPos with
      | some p => [GestureEvent.drawEnd p]
      | none => []
    else []
  let idleEvents :=
    if newGesture = ActiveGesture.IDLE ∧ previousGesture ≠ ActiveGesture.IDLE then
      [GestureEvent.idle]
    else []
  -- Reset zoom distance when not zooming (lines 194-197)
  let finalPinchDist :=
    if newGesture ≠ ActiveGesture.ZOOMING then none else pinchDistAfterChain
  -- State update (lines 199-211)
  ({ currentGesture := newGesture
     rightPinching := inp.rightPinching
     leftPinching := inp.leftPinching
     rightPalmOpen := inp.rightPalmOpen
     leftPalmOpen := inp.leftPalmOpen
     lastRightPinchPos := inp.rightPinchPos
     lastLeftPinchPos := inp.leftPinchPos
     lastRightPalmPos := inp.rightPalmPos
     lastLeftPalmPos := inp.leftPalmPos
     lastPinchDistance := finalPinchDist },
   branchEvents ++ endEvents ++ idleEvents)

/-! ## WhiteboardEngine (`src/whiteboard/WhiteboardEngine.ts`) -/

/-- `TemplateType` from `src/types/index.ts`. -/
inductive TemplateType
  | image
  | grid
  | dots
  | lines
deriving DecidableEq

/-- Transform record of `TemplateLayer` (`src/types/index.ts`). -/
structure TemplateTransform where
  x : ℚ
  y : ℚ
  scale : ℚ
  rotation : ℚ
deriving DecidableEq

/-- `GridConfig` from `src/types/index.ts`. -/
structure GridConfig where
  spacing : ℚ
  color : String
  lineWidth : ℚ
deriving DecidableEq

/-- `TemplateLayer` from `src/types/index.ts` (`type` renamed `ttype`). -/
structure TemplateLayer where
  id : String
  name : String
  ttype : TemplateType
  src : Option String
  visible : Bool
  transform : TemplateTransform
  gridConfig : Option GridConfig
deriving DecidableEq

/-- `Camera` from `src/types/index.ts`. -/
structure Camera where
  x : ℚ
  y : ℚ
  zoom : ℚ
deriving DecidableEq

/-- `Stroke` from `src/types/index.ts`. -/
structure Stroke where
  id : String
  points : List Pt
  color : String
  thickness : ℚ
  timestamp : ℤ
deriving DecidableEq

/-- `BoardState` from `src/types/index.ts`. -/
structure BoardState where
  strokes : List Stroke
  templates : List TemplateLayer
  camera : Camera
  activeStrokeId : Option String
deriving DecidableEq

/-- `PenConfig` from `src/types/index.ts`. -/
structure PenConfig where
  color : String
  thickness : ℚ
deriving DecidableEq

/-- The private fields of the `WhiteboardEngine` class
(`src/whiteboard/WhiteboardEngine.ts` lines 12-16). -/
structure Whiteboard where
  state : BoardState
  penConfig : PenConfig
  canvasWidth : ℚ
  canvasHeight : ℚ
deriving DecidableEq

/-- `WhiteboardEngine.screenToWorld` (lines 124-130):
`world = (screen - canvasSize/2) / zoom + cameraOffset`. -/
def screenToWorld (wb : Whiteboard) (screenPoint : Pt) : Pt :=
  ⟨(screenPoint.x - wb.canvasWidth / 2) / wb.state.camera.zoom + wb.state.camera.x,
   (screenPoint.y - wb.canvasHeight / 2) / wb.state.camera.zoom + wb.state.camera.y⟩

/-- `WhiteboardEngine.startStroke` (lines 142-156).  The fresh identifier
produced by `generateId()` and the `Date.now()` timestamp are parameters. -/
def startStroke (wb : Whiteboard) (id : String) (timestamp : ℤ) (screenPoint : Pt) :
    Whiteboard :=
  let worldPoint := screenToWorld wb screenPoint
  let stroke : Stroke :=
    ⟨id, [worldPoint], wb.penConfig.color, wb.penConfig.thickness, timestamp⟩
  { wb with state := { wb.state with
      strokes := wb.state.strokes ++ [stroke]
      activeStrokeId := some id } }

/-- `WhiteboardEngine.endStroke` (lines 182-197): no-op when no stroke is
active; otherwise looks the active stroke up, removes every stroke carrying
the active id when the found stroke has fewer than 2 points, and clears the
active-stroke marker. -/
def endStroke (wb : Whiteboard) : Whiteboard :=
  match wb.state.activeStrokeId with
  | none => wb
  | some sid =>
    let strokes :=
      match wb.state.strokes.find? (fun s => s.id == sid) with
      | some s =>
        if s.points.length < 2 then
          wb.state.strokes.filter (fun s => !(s.id == sid))
        else wb.state.strokes
      | none => wb.state.strokes
    { wb with state := { wb.state with strokes := strokes, activeStrokeId := none } }

/-- Squared Euclidean distance of two points. -/
def dist2 (p q : Pt) : ℚ :=
  (p.x - q.x) ^ 2 + (p.y - q.y) ^ 2

/-- Exact-real reading of the comparison
`Math.sqrt((p.x-q.x)^2 + (p.y-q.y)^2) < r` in `WhiteboardEngine.eraseAtPoint`
(lines 207-214): for a nonnegative radicand, `sqrt d < r` holds iff
`0 ≤ r ∧ d < r ^ 2` (for `r ≤ 0` the square root, being nonnegative, is
never below `r`). -/
def withinRadius (p q : Pt) (r : ℚ) : Bool :=
  decide (0 ≤ r) && decide (dist2 p q < r ^ 2)

/-- `WhiteboardEngine.eraseAtPoint` (lines 200-218): converts the screen
point to world space, scales the radius by `1 / zoom`, and keeps exactly the
strokes none of whose points fall strictly inside the world-space radius. -/
def eraseAtPoint (wb : Whiteboard) (screenPoint : Pt) (radiusScreen : ℚ) : Whiteboard :=
  let worldPoint := screenToWorld wb screenPoint
  let radiusWorld := radiusScreen / wb.state.camera.zoom
  { wb with state := { wb.state with
      strokes := wb.state.strokes.filter
        (fun stroke => !stroke.points.any (fun point => withinRadius point worldPoint radiusWorld)) } }

/-- `WhiteboardEngine.pan` (lines 221-230). -/
def panCamera (wb : Whiteboard) (deltaNormalized : Pt) : Whiteboard :=
  let dx := -deltaNormalized.x * wb.canvasWidth / wb.state.camera.zoom
  let dy := -deltaNormalized.y * wb.canvasHeight / wb.state.camera.zoom
  { wb with state := { wb.state with
      camera := { wb.state.camera with
        x := wb.state.camera.x + dx
        y := wb.state.camera.y + dy } } }

/-- `WhiteboardEngine.zoom` (lines 233-245): capture the world point under
`screenCenter`, multiply the zoom by `factor` clamped to `[0.1, 10]`,
recompute the world point under `screenCenter`, and shift the camera by the
difference. -/
def zoomCamera (wb : Whiteboard) (factor : ℚ) (screenCenter : Pt) : Whiteboard :=
  let worldCenter := screenToWorld wb screenCenter
  let newZoom := max (1/10) (min 10 (wb.state.camera.zoom * factor))
  let wb1 := { wb with state := { wb.state with
      camera := { wb.state.camera with zoom := newZoom } } }
  let newWorldCenter := screenToWorld wb1 screenCenter
  { wb1 with state := { wb1.state with
      camera := { wb1.state.camera with
        x := wb1.state.camera.x + (worldCenter.x - newWorldCenter.x)
        y := wb1.state.camera.y + (worldCenter.y - newWorldCenter.y) } } }

/-- `WhiteboardEngine.setPenThickness` (lines 277-279): clamp to `[1, 50]`. -/
def setPenThickness (wb : Whiteboard) (thickness : ℚ) : Whiteboard :=
  { wb with penConfig := { wb.penConfig with
      thickness := max 1 (min 50 thickness) } }

/-! ## LandmarkSmoother (`src/handTracking/LandmarkSmoother.ts`) -/

/-- Handedness label of a tracked hand. -/
inductive Handedness
  | left
  | right
deriving DecidableEq

/-- `HandLandmark` from `src/types/index.ts`. -/
structure HandLandmark where
  x : ℚ
  y : ℚ
  z : ℚ
  visibility : Option ℚ
deriving DecidableEq

/-- `Hand` from `src/types/index.ts`. -/
structure Hand where
  landmarks : List HandLandmark
  handedness : Handedness
  confidence : ℚ
deriving DecidableEq

/-- The `LandmarkSmoother` class state: the `smoothedHands` map, keyed by the
two-valued handedness label and hence embedded as two `Option` fields, plus
the smoothing factor `alpha`. -/
structure LandmarkSmoother where
  leftStored : Option (List HandLandmark)
  rightStored : Option (List HandLandmark)
  alpha : ℚ
deriving DecidableEq

/-- `smoothedHands.get(key)`. -/
def LandmarkSmoother.get (sm : LandmarkSmoother) : Handedness → Option (List HandLandmark)
  | .left => sm.leftStored
  | .right => sm.rightStored

/-- `smoothedHands.set(key, v)` / `smoothedHands.delete(key)` (with `none`). -/
def LandmarkSmoother.set (sm : LandmarkSmoother) :
    Handedness → Option (List HandLandmark) → LandmarkSmoother
  | .left, v => { sm with leftStored := v }
  | .right, v => { sm with rightStored := v }

/-- `LandmarkSmoother.setAlpha` (lines 18-20): clamp to `[0.1, 1.0]`. -/
def LandmarkSmoother.setAlpha (sm : LandmarkSmoother) (alpha : ℚ) : LandmarkSmoother :=
  { sm with alpha := max (1/10) (min 1 alpha) }

/-- `LandmarkSmoother.ema` (lines 66-68): `α·current + (1-α)·previous`. -/
def ema (alpha previous current : ℚ) : ℚ :=
  alpha * current + (1 - alpha) * previous

/-- The per-landmark EMA record built at lines 37-42: each coordinate
smoothed independently, visibility passed through. -/
def smoothLandmark (alpha : ℚ) (prev lm : HandLandmark) : HandLandmark :=
  ⟨ema alpha prev.x lm.x, ema alpha prev.y lm.y, ema alpha prev.z lm.z, lm.visibility⟩

/-- The `hand.landmarks.map((landmark, index) => ...)` of lines 35-43,
pairing each current landmark with the stored landmark at the same index.
(A current index beyond the stored array is unreachable for the fixed
21-landmark hands and modelled as passthrough.) -/
def smoothLandmarks (alpha : ℚ) : List HandLandmark → List HandLandmark → List HandLandmark
  | _, [] => []
  | [], lm :: rest => lm :: smoothLandmarks alpha [] rest
  | p :: ps, lm :: rest => smoothLandmark alpha p lm :: smoothLandmarks alpha ps rest

/-- The body of the per-hand loop of `LandmarkSmoother.smooth`
(lines 26-54): EMA against the stored entry when one exists, raw passthrough
on the first frame for this handedness; the result is stored back. -/
def processHand (sm : LandmarkSmoother) (hand : Hand) : Hand × LandmarkSmoother :=
  let lms :=
    match sm.get hand.handedness with
    | some prevs => smoothLandmarks sm.alpha prevs hand.landmarks
    | none => hand.landmarks
  ({ hand with landmarks := lms }, sm.set hand.handedness (some lms))

/-- The main loop of `LandmarkSmoother.smooth` over the current frame's
hands, threading the stored map. -/
def smoothAux : LandmarkSmoother → List Hand → List Hand × LandmarkSmoother
  | sm, [] => ([], sm)
  | sm, h :: rest =>
    ((processHand sm h).1 :: (smoothAux (processHand sm h).2 rest).1,
     (smoothAux (processHand sm h).2 rest).2)

/-- The eviction pass of `LandmarkSmoother.smooth` (lines 56-61): drop every
stored key with no hand in the current frame. -/
def evictAbsent (sm : LandmarkSmoother) (hands : List Hand) : LandmarkSmoother :=
  let sm1 :=
    if hands.any (fun h => h.handedness == Handedness.left) then sm
    else sm.set Handedness.left none
  if hands.any (fun h => h.handedness == Handedness.right) then sm1
  else sm1.set Handedness.right none

/-- `LandmarkSmoother.smooth` (lines 22-64): smooth every hand, then evict
stale keys. -/
def smooth (sm : LandmarkSmoother) (hands : List Hand) : List Hand × LandmarkSmoother :=
  ((smoothAux sm hands).1, evictAbsent (smoothAux sm hands).2 hands)

/-! ## SyncClient (`src/sync/SyncClient.ts`) -/

/-- `StrokeData` from `src/sync/SyncClient.ts`. -/
structure StrokeData where
  id : String
  points : List Pt
  color : String
  thickness : ℚ
deriving DecidableEq

/-- `SyncMessage` from `src/sync/SyncClient.ts`, with the payload shapes the
handler actually reads. -/
inductive SyncMessage
  | stroke (data : StrokeData)
  | strokeUpdate (id : String) (point : Pt)
  | strokeEnd (id : String)
  | clearMsg
  | connection
deriving DecidableEq

/-- The `pendingStrokes` map (string-keyed JS `Map`), embedded as an
association list in insertion order. -/
abbrev PendingStrokes := List (String × StrokeData)

/-- `pendingStrokes.get(k)`: first entry with the key. -/
def pendingGet (m : PendingStrokes) (k : String) : Option StrokeData :=
  (m.find? (fun e => e.1 == k)).map (fun e => e.2)

/-- `pendingStrokes.set(k, v)`: replace in place when the key exists,
append otherwise. -/
def pendingSet : PendingStrokes → String → StrokeData → PendingStrokes
  | [], k, v => [(k, v)]
  | e :: rest, k, v =>
    if e.1 == k then (k, v) :: rest else e :: pendingSet rest k v

/-- The `stroke_update` handling (lines 92-97): mutate the looked-up stroke
(the first entry with the key) by pushing the point; when the key is absent,
nothing changes. -/
def pendingUpdate : PendingStrokes → String → Pt → PendingStrokes
  | [], _, _ => []
  | e :: rest, k, pt =>
    if e.1 == k then (e.1, { e.2 with points := e.2.points ++ [pt] }) :: rest
    else e :: pendingUpdate rest k pt

/-- `SyncClient.handleMessage` (lines 82-105), restricted to its effect on
`pendingStrokes`: `stroke` stores a copy of the payload under its id,
`stroke_update` appends a point to the stroke when the id is known,
everything else leaves the map unchanged. -/
def handleMessage (st : PendingStrokes) : SyncMessage → PendingStrokes
  | .stroke d => pendingSet st d.id ⟨d.id, d.points, d.color, d.thickness⟩
  | .strokeUpdate id pt => pendingUpdate st id pt
  | _ => st

/-! ## Sample inputs used by witnesses -/

/-- A sample whiteboard: the engine's initial camera and pen over an empty
board (`WhiteboardEngine.createInitialState`, default canvas 1280x720). -/
def wbEx : Whiteboard :=
  { state :=
      { strokes := []
        templates := []
        camera := { x := 0, y := 0, zoom := 1 }
        activeStrokeId := none }
    penConfig := { color := "#ff4444", thickness := 4 }
    canvasWidth := 1280
    canvasHeight := 720 }

/-- A sample smoother state: empty map, the default smoothing factor 0.4. -/
def smEx : LandmarkSmoother :=
  { leftStored := none, rightStored := none, alpha := 2/5 }

/-- `DEFAULT_GESTURE_CONFIG` from `src/types/index.ts` with the
handedness-swap flag off.  (The shipped default sets `leftHandedMode` to
`true`; the flag is what the C3 theorem varies.) -/
def cfgUnswapped : GestureConfig :=
  { pinchThreshold := 1/20
    palmOpenThreshold := 1/5
    eraseRadius := 40
    zoomSensitivity := 3/2
    smoothingFactor := 2/5
    activationFrames := 2
    deactivationFrames := 2
    panSensitivity := 2
    leftHandedMode := false }

/-- `cfgUnswapped` with the handedness-swap flag on. -/
def cfgSwapped : GestureConfig := { cfgUnswapped with leftHandedMode := true }

/-- `GestureEngine.createInitialState` (lines 32-47). -/
def gsIdle : GestureState :=
  { currentGesture := ActiveGesture.IDLE
    rightPinching := false
    leftPinching := false
    rightPalmOpen := false
    leftPalmOpen := false
    lastRightPinchPos := none
    lastLeftPinchPos := none
    lastRightPalmPos := none
    lastLeftPalmPos := none
    lastPinchDistance := none }

/-- `gsIdle` with a recorded inter-pinch distance of 0.30. -/
def gsZoomPrev : GestureState := { gsIdle with lastPinchDistance := some (3/10) }

/-- A one-point stroke at the world origin. -/
def strokeHitEx : Stroke := ⟨"s1", [⟨0, 0⟩], "#ff4444", 4, 0⟩

/-- A one-point stroke far from the origin. -/
def strokeMissEx : Stroke := ⟨"s2", [⟨100, 100⟩], "#ff4444", 4, 0⟩

/-- `wbEx` with the two sample strokes on the board. -/
def wbErEx : Whiteboard :=
  { wbEx with state := { wbEx.state with strokes := [strokeHitEx, strokeMissEx] } }

/-- A sample Right hand with a single landmark. -/
def handEx : Hand :=
  { landmarks := [⟨1, 1, 0, none⟩], handedness := Handedness.right, confidence := 1 }

/-! ## Theorems

### C1: hysteresis activation/deactivation latency -/

theorem runHysteresis_cons (aF dF : ℕ) (init : Bool × ℕ) (d : Bool) (rest : List Bool) :
    runHysteresis aF dF init (d :: rest) =
      runHysteresis aF dF (hysteresisStep aF dF d init.1 init.2) rest := rfl

theorem runHysteresis_append (aF dF : ℕ) (init : Bool × ℕ) (l₁ l₂ : List Bool) :
    runHysteresis aF dF init (l₁ ++ l₂) =
      runHysteresis aF dF (runHysteresis aF dF init l₁) l₂ :=
  List.foldl_append _ _ _ _

/-- From the inactive state with counter `k`, a run of `n` consecutive true
readings with `k + n ≤ activationFrames` leaves the signal inactive with
counter `k + n`. -/
theorem runHysteresis_true_below (aF dF k n : ℕ) (h : k + n ≤ aF) :
    runHysteresis aF dF (false, k) (List.replicate n true) = (false, k + n) := by
  induction n generalizing k with
  | zero => simp [runHysteresis]
  | succ m ih =>
    have hk : ¬ k ≥ aF := by omega
    rw [List.replicate_succ, runHysteresis_cons]
    have hstep : hysteresisStep aF dF true false k = (false, k + 1) := by
      simp [hysteresisStep, hk]
    rw [hstep, ih (k + 1) (by omega)]
    congr 1
    omega

/-- Dual: from the active state with counter `k`, a run of `n` consecutive
false readings with `k + n ≤ deactivationFrames` leaves the signal active. -/
theorem runHysteresis_false_below (aF dF k n : ℕ) (h : k + n ≤ dF) :
    runHysteresis aF dF (true, k) (List.replicate n false) = (true, k + n) := by
  induction n generalizing k with
  | zero => simp [runHysteresis]
  | succ m ih =>
    have hk : ¬ k ≥ dF := by omega
    rw [List.replicate_succ, runHysteresis_cons]
    have hstep : hysteresisStep aF dF false true k = (true, k + 1) := by
      simp [hysteresisStep, hk]
    rw [hstep, ih (k + 1) (by omega)]
    congr 1
    omega

/-- C1 (as stated, counterexample): with the repository default
`activationFrames = 2` and the raw detector true for exactly 2 consecutive
frames from the initial inactive state with counter 0, the committed signal
is still inactive — the claim demands that it be active on that 2nd frame.
(It activates one frame later, on the 3rd consecutive true frame.) -/
theorem hysteresis_claim_counterexample :
    (runHysteresis 2 2 (false, 0) (List.replicate 2 true)).1 = false ∧
    (runHysteresis 2 2 (false, 0) (List.replicate 3 true)).1 = true := by
  decide

/-- C1 (amended): starting inactive with counter 0, the signal stays
inactive through any run of at most `activationFrames` consecutive true
readings, becomes active exactly on the `(activationFrames + 1)`-th
consecutive true reading, and a run of at most `activationFrames`
consecutive true readings followed by a false reading never activates it
(and resets the counter); symmetrically, deactivation from the active state
with counter 0 occurs exactly on the `(deactivationFrames + 1)`-th
consecutive false reading. -/
theorem hysteresis_activation_spec (aF dF n : ℕ) :
    (n ≤ aF → runHysteresis aF dF (false, 0) (List.replicate n true) = (false, n)) ∧
    runHysteresis aF dF (false, 0) (List.replicate (aF + 1) true) = (true, 0) ∧
    (n ≤ aF → runHysteresis aF dF (false, 0) (List.replicate n true ++ [false]) = (false, 0)) ∧
    (n ≤ dF → runHysteresis aF dF (true, 0) (List.replicate n false) = (true, n)) ∧
    runHysteresis aF dF (true, 0) (List.replicate (dF + 1) false) = (false, 0) ∧
    (n ≤ dF → runHysteresis aF dF (true, 0) (List.replicate n false ++ [true]) = (true, 0)) := by
  refine ⟨fun h => by simpa using runHysteresis_true_below aF dF 0 n (by omega),
          ?_, fun h => ?_, fun h => by simpa using runHysteresis_false_below aF dF 0 n (by omega),
          ?_, fun h => ?_⟩
  · rw [List.replicate_succ', runHysteresis_append]
    have h1 : runHysteresis aF dF (false, 0) (List.replicate aF true) = (false, aF) := by
      simpa using runHysteresis_true_below aF dF 0 aF (by omega)
    rw [h1]
    simp [runHysteresis, hysteresisStep]
  · rw [runHysteresis_append]
    have h1 : runHysteresis aF dF (false, 0) (List.replicate n true) = (false, n) := by
      simpa using runHysteresis_true_below aF dF 0 n (by omega)
    rw [h1]
    simp [runHysteresis, hysteresisStep]
  · rw [List.replicate_succ', runHysteresis_append]
    have h1 : runHysteresis aF dF (true, 0) (List.replicate dF false) = (true, dF) := by
      simpa using runHysteresis_false_below aF dF 0 dF (by omega)
    rw [h1]
    simp [runHysteresis, hysteresisStep]
  · rw [runHysteresis_append]
    have h1 : runHysteresis aF dF (true, 0) (List.replicate n false) = (true, n) := by
      simpa using runHysteresis_false_below aF dF 0 n (by omega)
    rw [h1]
    simp [runHysteresis, hysteresisStep]

/-- Witness for `hysteresis_activation_spec` at the repository defaults
`activationFrames = deactivationFrames = 2` and `n = 1`. -/
theorem hysteresis_activation_spec_witness :
    ((1 : ℕ) ≤ 2 ∧
      runHysteresis 2 2 (false, 0) (List.replicate 1 true) = (false, 1)) ∧
    runHysteresis 2 2 (false, 0) (List.replicate 3 true) = (true, 0) :=
  ⟨⟨by decide, (hysteresis_activation_spec 2 2 1).1 (by decide)⟩,
    (hysteresis_activation_spec 2 2 1).2.1⟩

/-! ### C2: zoom anchoring -/

/-- C2: for every whiteboard with nonzero zoom, every screen center and
every factor, `zoom(factor, screenCenter)` leaves the world point under
`screenCenter` unchanged (exactly, in exact-rational arithmetic, hence a
fortiori within floating-point tolerance), including when the new zoom level
is clamped to `[0.1, 10]` (the clamped level always lies in that range). -/
theorem zoom_anchoring (wb : Whiteboard) (factor : ℚ) (screenCenter : Pt)
    (h : wb.state.camera.zoom ≠ 0) :
    screenToWorld (zoomCamera wb factor screenCenter) screenCenter =
      screenToWorld wb screenCenter ∧
    1/10 ≤ (zoomCamera wb factor screenCenter).state.camera.zoom ∧
    (zoomCamera wb factor screenCenter).state.camera.zoom ≤ 10 := by
  refine ⟨?_, ?_, ?_⟩
  · unfold zoomCamera screenToWorld
    dsimp only
    rw [Pt.mk.injEq]
    constructor <;> ring
  · exact le_max_left _ _
  · exact max_le (by norm_num) (min_le_left _ _)

/-- Witness for `zoom_anchoring` at the initial camera, factor 2,
center (100, 100). -/
theorem zoom_anchoring_witness :
    wbEx.state.camera.zoom ≠ 0 ∧
    screenToWorld (zoomCamera wbEx 2 ⟨100, 100⟩) ⟨100, 100⟩ =
      screenToWorld wbEx ⟨100, 100⟩ :=
  ⟨by norm_num [wbEx], (zoom_anchoring wbEx 2 ⟨100, 100⟩ (by norm_num [wbEx])).1⟩

/-! ### C10: camera motion and erase touch disjoint parts of the state -/

/-- C10: `pan` and `zoom` leave the strokes (with all their stored points),
templates, active-stroke marker and pen configuration unchanged, and
`eraseAtPoint` leaves the camera, templates, active-stroke marker and pen
configuration unchanged. -/
theorem camera_erase_frame (wb : Whiteboard) (delta : Pt) (factor : ℚ)
    (center : Pt) (p : Pt) (r : ℚ) :
    ((panCamera wb delta).state.strokes = wb.state.strokes ∧
     (panCamera wb delta).state.templates = wb.state.templates ∧
     (panCamera wb delta).state.activeStrokeId = wb.state.activeStrokeId ∧
     (panCamera wb delta).penConfig = wb.penConfig) ∧
    ((zoomCamera wb factor center).state.strokes = wb.state.strokes ∧
     (zoomCamera wb factor center).state.templates = wb.state.templates ∧
     (zoomCamera wb factor center).state.activeStrokeId = wb.state.activeStrokeId ∧
     (zoomCamera wb factor center).penConfig = wb.penConfig) ∧
    ((eraseAtPoint wb p r).state.camera = wb.state.camera ∧
     (eraseAtPoint wb p r).state.templates = wb.state.templates ∧
     (eraseAtPoint wb p r).state.activeStrokeId = wb.state.activeStrokeId ∧
     (eraseAtPoint wb p r).penConfig = wb.penConfig) :=
  ⟨⟨rfl, rfl, rfl, rfl⟩, ⟨rfl, rfl, rfl, rfl⟩, rfl, rfl, rfl, rfl⟩

/-! ### C9: configuration writes are clamped, never rejected -/

/-- C9 (as stated, counterexample): the claim puts the stored smoothing
factor in the left-open range `(0.1, 1.0]`, but `setAlpha(0)` on the sample
smoother stores exactly `0.1`, which that range excludes. -/
theorem config_clamp_counterexample :
    (smEx.setAlpha 0).alpha = 1/10 ∧ ¬ (1/10 < (smEx.setAlpha 0).alpha) := by
  constructor <;> norm_num [LandmarkSmoother.setAlpha, smEx]

/-- C9 (amended): every out-of-range configuration write is clamped to the
nearest valid bound rather than rejected: `setAlpha` stores the value
clamped into the closed range `[0.1, 1.0]`, `setPenThickness` stores the
thickness clamped into `[1, 50]`, and `zoom` stores the zoom level clamped
into `[0.1, 10]`; each write is total and stores exactly the clamp of its
input, regardless of the previous value. -/
theorem config_clamping (sm : LandmarkSmoother) (a t : ℚ) (wb : Whiteboard)
    (factor : ℚ) (c : Pt) :
    ((sm.setAlpha a).alpha = max (1/10) (min 1 a) ∧
     1/10 ≤ (sm.setAlpha a).alpha ∧ (sm.setAlpha a).alpha ≤ 1 ∧
     (a < 1/10 → (sm.setAlpha a).alpha = 1/10) ∧
     (1 < a → (sm.setAlpha a).alpha = 1) ∧
     (1/10 ≤ a → a ≤ 1 → (sm.setAlpha a).alpha = a)) ∧
    ((setPenThickness wb t).penConfig.thickness = max 1 (min 50 t) ∧
     1 ≤ (setPenThickness wb t).penConfig.thickness ∧
     (setPenThickness wb t).penConfig.thickness ≤ 50 ∧
     (t < 1 → (setPenThickness wb t).penConfig.thickness = 1) ∧
     (50 < t → (setPenThickness wb t).penConfig.thickness = 50) ∧
     (1 ≤ t → t ≤ 50 → (setPenThickness wb t).penConfig.thickness = t)) ∧
    ((zoomCamera wb factor c).state.camera.zoom =
       max (1/10) (min 10 (wb.state.camera.zoom * factor)) ∧
     1/10 ≤ (zoomCamera wb factor c).state.camera.zoom ∧
     (zoomCamera wb factor c).state.camera.zoom ≤ 10) := by
  refine ⟨⟨rfl, le_max_left _ _, max_le (by norm_num) (min_le_left _ _),
           fun h => ?_, fun h => ?_, fun h1 h2 => ?_⟩,
          ⟨rfl, le_max_left _ _, max_le (by norm_num) (min_le_left _ _),
           fun h => ?_, fun h => ?_, fun h1 h2 => ?_⟩,
          rfl, le_max_left _ _, max_le (by norm_num) (min_le_left _ _)⟩
  · show max (1/10) (min 1 a) = 1/10
    rw [min_eq_right (by linarith : a ≤ 1), max_eq_left (by linarith : a ≤ 1/10)]
  · show max (1/10) (min 1 a) = 1
    rw [min_eq_left (by linarith : (1:ℚ) ≤ a), max_eq_right (by norm_num : (1:ℚ)/10 ≤ 1)]
  · show max (1/10) (min 1 a) = a
    rw [min_eq_right h2, max_eq_right h1]
  · show max 1 (min 50 t) = 1
    rw [min_eq_right (by linarith : t ≤ 50), max_eq_left (by linarith : t ≤ 1)]
  · show max 1 (min 50 t) = 50
    rw [min_eq_left (by linarith : (50:ℚ) ≤ t), max_eq_right (by norm_num : (1:ℚ) ≤ 50)]
  · show max 1 (min 50 t) = t
    rw [min_eq_right h2, max_eq_right h1]

/-- Witness for `config_clamping`: an out-of-range smoothing factor 0 is
clamped up to 0.1, an out-of-range thickness 60 is clamped down to 50. -/
theorem config_clamping_witness :
    ((0:ℚ) < 1/10 ∧ ∀ sm : LandmarkSmoother, (sm.setAlpha 0).alpha = 1/10) ∧
    ((50:ℚ) < 60 ∧ (setPenThickness wbEx 60).penConfig.thickness = 50) :=
  ⟨⟨by norm_num,
    fun sm => (config_clamping sm 0 60 wbEx 1 ⟨0, 0⟩).1.2.2.2.1 (by norm_num)⟩,
   ⟨by norm_num,
    (config_clamping smEx 0 60 wbEx 1 ⟨0, 0⟩).2.1.2.2.2.2.1 (by norm_num)⟩⟩

/-! ### C5: one-point strokes are discarded at end-of-stroke -/

/-- C5: `startStroke` (with a fresh identifier) immediately followed by
`endStroke` leaves the stroke list exactly as before; `endStroke` always
clears the active-stroke marker; and in general, when the active stroke is
found and has fewer than 2 points, `endStroke` removes every stroke carrying
the active identifier — in particular the active stroke itself. -/
theorem stroke_discard (wb : Whiteboard) (id : String) (ts : ℤ) (p : Pt)
    (hfresh : ∀ s ∈ wb.state.strokes, s.id ≠ id) :
    ((endStroke (startStroke wb id ts p)).state.strokes = wb.state.strokes ∧
     (endStroke (startStroke wb id ts p)).state.activeStrokeId = none) ∧
    (∀ wb' : Whiteboard, (endStroke wb').state.activeStrokeId = none) ∧
    (∀ (wb' : Whiteboard) (sid : String) (s : Stroke),
       wb'.state.activeStrokeId = some sid →
       wb'.state.strokes.find? (fun t => t.id == sid) = some s →
       s.points.length < 2 →
       ((endStroke wb').state.strokes =
          wb'.state.strokes.filter (fun t => !(t.id == sid)) ∧
        s ∉ (endStroke wb').state.strokes)) := by
  have hmarker : ∀ wb' : Whiteboard, (endStroke wb').state.activeStrokeId = none := by
    intro wb'
    rcases hA : wb'.state.activeStrokeId with _ | sid <;> simp [endStroke, hA]
  have hremove : ∀ (wb' : Whiteboard) (sid : String) (s : Stroke),
      wb'.state.activeStrokeId = some sid →
      wb'.state.strokes.find? (fun t => t.id == sid) = some s →
      s.points.length < 2 →
      (endStroke wb').state.strokes =
        wb'.state.strokes.filter (fun t => !(t.id == sid)) := by
    intro wb' sid s hact hfind hlen
    unfold endStroke
    rw [hact]
    dsimp only
    rw [hfind]
    simp [hlen]
  have hnotmem : ∀ (wb' : Whiteboard) (sid : String) (s : Stroke),
      wb'.state.activeStrokeId = some sid →
      wb'.state.strokes.find? (fun t => t.id == sid) = some s →
      s.points.length < 2 →
      s ∉ (endStroke wb').state.strokes := by
    intro wb' sid s hact hfind hlen hmem
    rw [hremove wb' sid s hact hfind hlen] at hmem
    have hbad := (List.mem_filter.mp hmem).2
    have hgood := List.find?_some hfind
    simp at hbad hgood
    exact hbad hgood
  refine ⟨?_, hmarker, fun wb' sid s hact hfind hlen =>
    ⟨hremove wb' sid s hact hfind hlen, hnotmem wb' sid s hact hfind hlen⟩⟩
  set newStroke : Stroke :=
    ⟨id, [screenToWorld wb p], wb.penConfig.color, wb.penConfig.thickness, ts⟩ with hnew
  have hact1 : (startStroke wb id ts p).state.activeStrokeId = some id := rfl
  have hstr1 : (startStroke wb id ts p).state.strokes =
      wb.state.strokes ++ [newStroke] := rfl
  have hnone : wb.state.strokes.find? (fun t => t.id == id) = none := by
    rw [List.find?_eq_none]
    intro x hx
    simpa using hfresh x hx
  have hfind1 : (startStroke wb id ts p).state.strokes.find? (fun t => t.id == id)
      = some newStroke := by
    rw [hstr1, List.find?_append, hnone]
    simp
  have hlen1 : newStroke.points.length < 2 := by simp [hnew]
  constructor
  · rw [hremove _ id newStroke hact1 hfind1 hlen1, hstr1, List.filter_append]
    have h1 : wb.state.strokes.filter (fun t => !(t.id == id)) = wb.state.strokes := by
      rw [List.filter_eq_self]
      intro a ha
      simpa using hfresh a ha
    have h2 : [newStroke].filter (fun t => !(t.id == id)) = [] := by simp [hnew]
    rw [h1, h2, List.append_nil]
  · exact hmarker _

/-- Witness for `stroke_discard`: on the empty sample board, a start/end
pair leaves the stroke list empty. -/
theorem stroke_discard_witness :
    (∀ s ∈ wbEx.state.strokes, s.id ≠ "fresh") ∧
    (endStroke (startStroke wbEx "fresh" 0 ⟨1, 2⟩)).state.strokes =
      wbEx.state.strokes :=
  ⟨by simp [wbEx],
   ((stroke_discard wbEx "fresh" 0 ⟨1, 2⟩) (by simp [wbEx])).1.1⟩

/-! ### C6: erase removes exactly the strokes with a point in radius -/

/-- C6: `eraseAtPoint(screenPoint, radiusScreen)` keeps, in order, exactly
the strokes none of whose points lie strictly within world-space distance
`radiusScreen / zoom` of `screenToWorld screenPoint` (distance expressed on
squares: `dist < r` iff `0 ≤ r ∧ dist2 < r ^ 2`); a stroke with even one
point inside the radius is removed entirely, and a stroke with no point
inside is kept entirely — never trimmed. -/
theorem erase_whole_stroke (wb : Whiteboard) (screenPoint : Pt) (radiusScreen : ℚ) :
    (eraseAtPoint wb screenPoint radiusScreen).state.strokes =
      wb.state.strokes.filter
        (fun s => !s.points.any (fun q =>
          withinRadius q (screenToWorld wb screenPoint)
            (radiusScreen / wb.state.camera.zoom))) ∧
    (∀ s ∈ wb.state.strokes,
      (∃ q ∈ s.points,
         0 ≤ radiusScreen / wb.state.camera.zoom ∧
         dist2 q (screenToWorld wb screenPoint) <
           (radiusScreen / wb.state.camera.zoom) ^ 2) →
      s ∉ (eraseAtPoint wb screenPoint radiusScreen).state.strokes) ∧
    (∀ s ∈ wb.state.strokes,
      (∀ q ∈ s.points,
         ¬ (0 ≤ radiusScreen / wb.state.camera.zoom ∧
            dist2 q (screenToWorld wb screenPoint) <
              (radiusScreen / wb.state.camera.zoom) ^ 2)) →
      s ∈ (eraseAtPoint wb screenPoint radiusScreen).state.strokes) := by
  refine ⟨rfl, ?_, ?_⟩
  · rintro s _ ⟨q, hq, hr, hd⟩ hmem
    have hkeep := (List.mem_filter.mp hmem).2
    simp only [withinRadius, Bool.not_eq_true', List.any_eq_false] at hkeep
    have h2 := hkeep q hq
    simp only [Bool.and_eq_true, decide_eq_true_eq] at h2
    exact h2 ⟨hr, hd⟩
  · intro s hs hall
    refine List.mem_filter.mpr ⟨hs, ?_⟩
    simp only [withinRadius, Bool.not_eq_true', List.any_eq_false]
    intro q hq
    simp only [Bool.and_eq_true, decide_eq_true_eq]
    exact hall q hq

/-- Witness for `erase_whole_stroke`: erasing at the screen center of the
sample board removes the stroke at the world origin. -/
theorem erase_whole_stroke_witness :
    strokeHitEx ∈ wbErEx.state.strokes ∧
    strokeHitEx ∉ (eraseAtPoint wbErEx ⟨640, 360⟩ 10).state.strokes := by
  refine ⟨by simp [wbErEx, wbEx], ?_⟩
  apply (erase_whole_stroke wbErEx ⟨640, 360⟩ 10).2.1 strokeHitEx
    (by simp [wbErEx, wbEx])
  refine ⟨⟨0, 0⟩, by simp [strokeHitEx], ?_, ?_⟩
  · norm_num [wbErEx, wbEx]
  · norm_num [dist2, screenToWorld, wbErEx, wbEx]

/-! ### C3: handedness swap binds the draw role -/

/-- C3: on a frame whose only committed signal is a pinch (no palm signals,
previous gesture not DRAWING): with the swap flag off, a Right-hand pinch
emits exactly `DRAW_START` at the pinch position; with the swap flag on, the
same Right-hand pinch emits no draw event of any kind (at most an `IDLE`
transition event), and a Left-hand pinch is what emits `DRAW_START`. -/
theorem handedness_swap_draw (sqrtA : ℚ → ℚ) (cfg : GestureConfig)
    (st : GestureState) (p : Pt)
    (hprev : st.currentGesture ≠ ActiveGesture.DRAWING) :
    (cfg.leftHandedMode = false →
      (resolveGesture sqrtA cfg st
        ⟨true, false, false, false, some p, none, none, none⟩).2 =
        [GestureEvent.drawStart p]) ∧
    (cfg.leftHandedMode = true →
      ∀ e ∈ (resolveGesture sqrtA cfg st
        ⟨true, false, false, false, some p, none, none, none⟩).2,
        e = GestureEvent.idle) ∧
    (cfg.leftHandedMode = true →
      (resolveGesture sqrtA cfg st
        ⟨false, true, false, false, none, some p, none, none⟩).2 =
        [GestureEvent.drawStart p]) := by
  refine ⟨fun hm => ?_, fun hm => ?_, fun hm => ?_⟩
  · simp [resolveGesture, hm, hprev]
  · intro e he
    simp only [resolveGesture, hm] at he
    simp [hprev] at he
    exact he.2
  · simp [resolveGesture, hm, hprev]

/-- Witness for `handedness_swap_draw`: from the initial gesture state, with
the swap flag off, a Right-hand pinch at (1/2, 1/2) emits `DRAW_START`
there; with the flag on, the Left-hand pinch does. -/
theorem handedness_swap_draw_witness :
    gsIdle.currentGesture ≠ ActiveGesture.DRAWING ∧
    (resolveGesture id cfgUnswapped gsIdle
      ⟨true, false, false, false, some ⟨1/2, 1/2⟩, none, none, none⟩).2 =
      [GestureEvent.drawStart ⟨1/2, 1/2⟩] ∧
    (resolveGesture id cfgSwapped gsIdle
      ⟨false, true, false, false, none, some ⟨1/2, 1/2⟩, none, none⟩).2 =
      [GestureEvent.drawStart ⟨1/2, 1/2⟩] :=
  ⟨by decide,
   (handedness_swap_draw id cfgUnswapped gsIdle ⟨1/2, 1/2⟩ (by decide)).1 rfl,
   (handedness_swap_draw id cfgSwapped gsIdle ⟨1/2, 1/2⟩ (by decide)).2.2 rfl⟩

/-! ### C7: two-hand zoom factor, baseline, and baseline clearing -/

/-- C7: on a frame where both committed pinch signals are active with
positions present, if a previous inter-pinch distance `d` is recorded, a
`ZOOM` event is emitted whose factor is
`1 + (currentDistance / d - 1) * zoomSensitivity` and whose center is the
midpoint of the two pinch positions, and the new state records the current
distance; if no previous distance is recorded, no `ZOOM` event is emitted;
and on every frame whose resolved gesture is not `ZOOMING`, the stored
distance is cleared to `none`. -/
theorem zoom_factor_spec (sqrtA : ℚ → ℚ) (cfg : GestureConfig)
    (st : GestureState) (rp lp : Pt) (rpo lpo : Bool) (rPalm lPalm : Option Pt) :
    (∀ d, st.lastPinchDistance = some d →
      (GestureEvent.zoomEv
          (1 + (calculateDistance sqrtA rp lp / d - 1) * cfg.zoomSensitivity)
          ⟨(rp.x + lp.x) / 2, (rp.y + lp.y) / 2⟩ ∈
        (resolveGesture sqrtA cfg st
          ⟨true, true, rpo, lpo, some rp, some lp, rPalm, lPalm⟩).2 ∧
      (resolveGesture sqrtA cfg st
          ⟨true, true, rpo, lpo, some rp, some lp, rPalm, lPalm⟩).1.lastPinchDistance =
        some (calculateDistance sqrtA rp lp))) ∧
    (st.lastPinchDistance = none →
      ∀ f c, GestureEvent.zoomEv f c ∉
        (resolveGesture sqrtA cfg st
          ⟨true, true, rpo, lpo, some rp, some lp, rPalm, lPalm⟩).2) ∧
    (∀ (st' : GestureState) (inp : ResolveInput),
      (resolveGesture sqrtA cfg st' inp).1.currentGesture ≠ ActiveGesture.ZOOMING →
      (resolveGesture sqrtA cfg st' inp).1.lastPinchDistance = none) := by
  refine ⟨fun d hd => ⟨?_, ?_⟩, fun hnone f c => ?_, fun st' inp h => ?_⟩
  · simp [resolveGesture, hd]
  · simp [resolveGesture, hd]
  · simp only [resolveGesture, hnone]
    simp only [List.mem_append, List.mem_cons]
    intro hmem
    rcases hmem with hmem | hmem
    · rcases hmem with hmem | hmem
      · simp at hmem
      · split at hmem <;> simp_all <;> split at hmem <;> simp_all
    · split at hmem <;> simp_all
  · simp only [resolveGesture] at h ⊢
    rw [if_pos h]

/-- Witness for `zoom_factor_spec`, reproducing the spec scenario: previous
distance 0.30, current distance 0.33, sensitivity 1.5, so the emitted factor
is 1.15, centered between the two pinches. -/
theorem zoom_factor_spec_witness :
    gsZoomPrev.lastPinchDistance = some (3/10) ∧
    GestureEvent.zoomEv (23/20) ⟨1/2, 1/2⟩ ∈
      (resolveGesture (fun _ => 33/100) cfgUnswapped gsZoomPrev
        ⟨true, true, false, false, some ⟨1/4, 1/2⟩, some ⟨3/4, 1/2⟩,
          none, none⟩).2 := by
  refine ⟨rfl, ?_⟩
  have h := ((zoom_factor_spec (fun _ => 33/100) cfgUnswapped gsZoomPrev
    ⟨1/4, 1/2⟩ ⟨3/4, 1/2⟩ false false none none).1 (3/10) rfl).1
  have e1 : (1 + (calculateDistance (fun _ => (33:ℚ)/100) ⟨1/4, 1/2⟩ ⟨3/4, 1/2⟩
      / (3/10) - 1) * cfgUnswapped.zoomSensitivity) = 23/20 := by
    norm_num [calculateDistance, cfgUnswapped]
  have e2 : (⟨(1/4 + 3/4) / 2, (1/2 + 1/2) / 2⟩ : Pt) = ⟨1/2, 1/2⟩ := by
    norm_num [Pt.mk.injEq]
  rw [e1, e2] at h
  exact h

/-! ### C4: the smoother is an exact EMA with first-frame passthrough -/

theorem LandmarkSmoother.get_set_ne (sm : LandmarkSmoother) (k k' : Handedness)
    (v : Option (List HandLandmark)) (h : k' ≠ k) :
    (sm.set k v).get k' = sm.get k' := by
  cases k <;> cases k' <;>
    simp_all [LandmarkSmoother.get, LandmarkSmoother.set]

theorem LandmarkSmoother.alpha_set (sm : LandmarkSmoother) (k : Handedness)
    (v : Option (List HandLandmark)) : (sm.set k v).alpha = sm.alpha := by
  cases k <;> rfl

theorem smoothLandmarks_length (a : ℚ) (prevs lms : List HandLandmark) :
    (smoothLandmarks a prevs lms).length = lms.length := by
  induction lms generalizing prevs with
  | nil => cases prevs <;> rfl
  | cons lm rest ih => cases prevs <;> simp [smoothLandmarks, ih]

theorem smoothLandmarks_get? (a : ℚ) (prevs lms : List HandLandmark) (j : ℕ)
    (p lm : HandLandmark) (hp : prevs.get? j = some p) (hl : lms.get? j = some lm) :
    (smoothLandmarks a prevs lms).get? j = some (smoothLandmark a p lm) := by
  induction lms generalizing prevs j with
  | nil => simp at hl
  | cons l rest ih =>
    cases prevs with
    | nil => simp at hp
    | cons q qs =>
      cases j with
      | zero =>
        simp only [List.get?_cons_zero, Option.some.injEq] at hp hl
        subst hp; subst hl
        rfl
      | succ k =>
        simp only [List.get?_cons_succ] at hp hl
        simpa [smoothLandmarks] using ih qs k hp hl

theorem smoothLandmark_one (p lm : HandLandmark) : smoothLandmark 1 p lm = lm := by
  cases lm
  simp [smoothLandmark, ema]

theorem smoothLandmarks_one (prevs lms : List HandLandmark) :
    smoothLandmarks 1 prevs lms = lms := by
  induction lms generalizing prevs with
  | nil => cases prevs <;> rfl
  | cons lm rest ih =>
    cases prevs <;> simp [smoothLandmarks, smoothLandmark_one, ih]

/-- Output characterisation of the smoothing loop: when the current frame's
hands carry pairwise distinct handedness keys, the `i`-th output hand is the
`i`-th input hand smoothed against the *initial* stored entry for its key. -/
theorem smoothAux_get? (sm : LandmarkSmoother) (hands : List Hand)
    (hdist : hands.Pairwise (fun a b => a.handedness ≠ b.handedness)) :
    ∀ (i : ℕ) (h : Hand), hands.get? i = some h →
      (smoothAux sm hands).1.get? i = some
        { h with landmarks :=
            match sm.get h.handedness with
            | some prevs => smoothLandmarks sm.alpha prevs h.landmarks
            | none => h.landmarks } := by
  induction hands generalizing sm with
  | nil => intro i h hih; simp at hih
  | cons hd tl ih =>
    intro i h hih
    rcases List.pairwise_cons.mp hdist with ⟨hhd, htl⟩
    cases i with
    | zero =>
      simp only [List.get?_cons_zero, Option.some.injEq] at hih
      subst hih
      rfl
    | succ j =>
      simp only [List.get?_cons_succ] at hih
      have hne : h.handedness ≠ hd.handedness := (hhd h (List.get?_mem hih)).symm
      have hrec := ih (processHand sm hd).2 htl j h hih
      have hget : (processHand sm hd).2.get h.handedness = sm.get h.handedness :=
        LandmarkSmoother.get_set_ne sm hd.handedness h.handedness _ hne
      have halpha : (processHand sm hd).2.alpha = sm.alpha :=
        LandmarkSmoother.alpha_set sm hd.handedness _
    -- the `(smoothAux sm (hd :: tl)).1.get? (j+1)` is the tail's output at `j`
      show (smoothAux (processHand sm hd).2 tl).1.get? j = _
      rw [hrec, hget, halpha]

/-- C4: with pairwise-distinct handedness keys in the frame, for the `i`-th
hand `h` of the frame: if no entry is stored for its key, the output equals
the raw input unchanged; if an entry `prevs` is stored, the output has the
same non-landmark fields and landmark count, and each coordinate at each
index is exactly `α·raw + (1-α)·previous_smoothed`, with visibility passed
through; and with `α = 1` the smoother is a passthrough. -/
theorem smoother_ema_spec (sm : LandmarkSmoother) (hands : List Hand)
    (hdist : hands.Pairwise (fun a b => a.handedness ≠ b.handedness))
    (i : ℕ) (h : Hand) (hih : hands.get? i = some h) :
    (sm.get h.handedness = none → (smooth sm hands).1.get? i = some h) ∧
    (∀ prevs, sm.get h.handedness = some prevs →
      ∃ lms, (smooth sm hands).1.get? i = some { h with landmarks := lms } ∧
        lms.length = h.landmarks.length ∧
        ∀ (j : ℕ) (p lm : HandLandmark),
          prevs.get? j = some p → h.landmarks.get? j = some lm →
          lms.get? j = some
            ⟨sm.alpha * lm.x + (1 - sm.alpha) * p.x,
             sm.alpha * lm.y + (1 - sm.alpha) * p.y,
             sm.alpha * lm.z + (1 - sm.alpha) * p.z,
             lm.visibility⟩) ∧
    (sm.alpha = 1 → (smooth sm hands).1.get? i = some h) := by
  have hout := smoothAux_get? sm hands hdist i h hih
  have hsm : (smooth sm hands).1 = (smoothAux sm hands).1 := rfl
  refine ⟨fun hnone => ?_, fun prevs hsome => ?_, fun hone => ?_⟩
  · rw [hsm, hout, hnone]
  · refine ⟨smoothLandmarks sm.alpha prevs h.landmarks, ?_, ?_, ?_⟩
    · rw [hsm, hout, hsome]
    · exact smoothLandmarks_length _ _ _
    · intro j p lm hp hl
      rw [smoothLandmarks_get? sm.alpha prevs h.landmarks j p lm hp hl]
      rfl
  · rw [hsm, hout]
    cases hc : sm.get h.handedness <;> rw [hone] <;>
      simp [smoothLandmarks_one]

/-- Witness for `smoother_ema_spec`: a hand seen for the first time passes
through unchanged. -/
theorem smoother_ema_spec_witness :
    ([handEx].Pairwise (fun a b => a.handedness ≠ b.handedness) ∧
      smEx.get handEx.handedness = none) ∧
    (smooth smEx [handEx]).1.get? 0 = some handEx :=
  ⟨⟨by simp, rfl⟩,
   (smoother_ema_spec smEx [handEx] (by simp) 0 handEx rfl).1 rfl⟩

/-! ### C8: stroke_update for an unknown id is a no-op -/

theorem pendingGet_eq_none (st : PendingStrokes) (id : String) :
    pendingGet st id = none ↔ ∀ e ∈ st, ¬ (e.1 == id) = true := by
  simp [pendingGet, List.find?_eq_none]

theorem pendingUpdate_absent (st : PendingStrokes) (id : String) (pt : Pt)
    (h : pendingGet st id = none) : pendingUpdate st id pt = st := by
  induction st with
  | nil => rfl
  | cons e rest ih =>
    rw [pendingGet_eq_none] at h
    have he : ¬ (e.1 == id) = true := h e (List.mem_cons_self e rest)
    have hrest : pendingGet rest id = none :=
      (pendingGet_eq_none rest id).mpr fun x hx => h x (List.mem_cons_of_mem _ hx)
    simp only [pendingUpdate]
    rw [if_neg he, ih hrest]

theorem pendingGet_set_ne (st : PendingStrokes) (k : String) (v : StrokeData)
    (id : String) (h : k ≠ id) :
    pendingGet (pendingSet st k v) id = pendingGet st id := by
  induction st with
  | nil => simp [pendingSet, pendingGet, h]
  | cons e rest ih =>
    by_cases hek : (e.1 == k) = true
    · have he1 : e.1 = k := by simpa using hek
      have hki : (k == id) = false := by
        simp only [beq_eq_false_iff_ne, ne_eq]
        exact h
      simp only [pendingSet, if_pos hek]
      simp [pendingGet, List.find?, he1, hki]
    · simp only [pendingSet, if_neg hek]
      by_cases hei : (e.1 == id) = true
      · simp [pendingGet, List.find?, hei]
      · simp only [pendingGet, List.find?, hei] at ih ⊢
        exact ih

theorem pendingGet_update_none (st : PendingStrokes) (k : String) (pt : Pt)
    (id : String) (h : pendingGet st id = none) :
    pendingGet (pendingUpdate st k pt) id = none := by
  induction st with
  | nil => exact h
  | cons e rest ih =>
    rw [pendingGet_eq_none] at h
    have he : ¬ (e.1 == id) = true := h e (List.mem_cons_self e rest)
    have hrest : pendingGet rest id = none :=
      (pendingGet_eq_none rest id).mpr fun x hx => h x (List.mem_cons_of_mem _ hx)
    by_cases hek : (e.1 == k) = true
    · simp only [pendingUpdate, if_pos hek]
      simp [pendingGet, List.find?, he, hrest]
      simpa [pendingGet] using hrest
    · simp only [pendingUpdate, if_neg hek]
      simp only [pendingGet, List.find?, he] at ih ⊢
      simp only [Bool.not_eq_true] at he
      simp [he]
      simpa [pendingGet] using ih hrest

theorem pendingGet_foldl_none (msgs : List SyncMessage) (id : String) :
    ∀ st : PendingStrokes, pendingGet st id = none →
      (∀ d, SyncMessage.stroke d ∈ msgs → d.id ≠ id) →
      pendingGet (msgs.foldl handleMessage st) id = none := by
  induction msgs with
  | nil => intro st h _; simpa using h
  | cons m rest ih =>
    intro st h hno
    simp only [List.foldl_cons]
    refine ih (handleMessage st m) ?_ fun d hd => hno d (List.mem_cons_of_mem _ hd)
    cases m with
    | stroke d =>
      have hne : d.id ≠ id := hno d (List.mem_cons_self _ _)
      simpa [handleMessage] using pendingGet_set_ne st d.id _ id hne ▸ h
    | strokeUpdate k pt => exact pendingGet_update_none st k pt id h
    | strokeEnd k => exact h
    | clearMsg => exact h
    | connection => exact h

theorem pendingUpdate_known (st : PendingStrokes) (id : String) (pt : Pt)
    (s : StrokeData) (h : pendingGet st id = some s) :
    pendingGet (pendingUpdate st id pt) id =
      some { s with points := s.points ++ [pt] } ∧
    ∀ k, k ≠ id →
      pendingGet (pendingUpdate st id pt) k = pendingGet st k := by
  induction st with
  | nil => simp [pendingGet] at h
  | cons e rest ih =>
    by_cases he : (e.1 == id) = true
    · have he1 : e.1 = id := by simpa using he
      have hs : e.2 = s := by
        simpa [pendingGet, List.find?, he] using h
      subst hs
      constructor
      · simp [pendingUpdate, pendingGet, List.find?, he]
      · intro k hk
        have hek : ¬ (e.1 == k) = true := by simp [he1]; exact fun hc => hk hc.symm
        simp [pendingUpdate, pendingGet, List.find?, he, hek]
    · have hrest : pendingGet rest id = some s := by
        simpa [pendingGet, List.find?, he] using h
      rcases ih hrest with ⟨ih1, ih2⟩
      constructor
      · simp only [pendingUpdate, if_neg he]
        simpa [pendingGet, List.find?, he] using ih1
      · intro k hk
        by_cases hek : (e.1 == k) = true
        · simp only [pendingUpdate, if_neg he]
          simp [pendingGet, List.find?, hek]
        · simp only [pendingUpdate, if_neg he]
          simp only [pendingGet, List.find?, hek]
          simpa [pendingGet] using ih2 k hk

/-- C8: over any sequence of remote messages containing no `stroke` message
introducing `id`, a `stroke_update` for `id` leaves the stored stroke
collection exactly unchanged (the handler is a total function — no
exception); and a `stroke_update` for a known id appends exactly one point
to that id's stroke and leaves every other id's entry unchanged. -/
theorem remote_update_unknown_noop (msgs : List SyncMessage) (id : String) (pt : Pt)
    (hnew : ∀ d, SyncMessage.stroke d ∈ msgs → d.id ≠ id) :
    handleMessage (msgs.foldl handleMessage []) (SyncMessage.strokeUpdate id pt) =
      msgs.foldl handleMessage [] ∧
    (∀ (st : PendingStrokes) (s : StrokeData), pendingGet st id = some s →
      pendingGet (handleMessage st (SyncMessage.strokeUpdate id pt)) id =
        some { s with points := s.points ++ [pt] } ∧
      ∀ k, k ≠ id →
        pendingGet (handleMessage st (SyncMessage.strokeUpdate id pt)) k =
          pendingGet st k) := by
  constructor
  · have h0 : pendingGet ([] : PendingStrokes) id = none := rfl
    have habs := pendingGet_foldl_none msgs id [] h0 hnew
    exact pendingUpdate_absent _ id pt habs
  · intro st s h
    exact pendingUpdate_known st id pt s h

/-- Witness for `remote_update_unknown_noop`: after a `stroke` message for
id "a", a `stroke_update` for the never-opened id "b" changes nothing. -/
theorem remote_update_unknown_noop_witness :
    (∀ d, SyncMessage.stroke d ∈
        [SyncMessage.stroke ⟨"a", [], "red", 1⟩] → d.id ≠ "b") ∧
    handleMessage
        ([SyncMessage.stroke ⟨"a", [], "red", 1⟩].foldl handleMessage [])
        (SyncMessage.strokeUpdate "b" ⟨0, 0⟩) =
      [SyncMessage.stroke ⟨"a", [], "red", 1⟩].foldl handleMessage [] := by
  have hnew : ∀ d, SyncMessage.stroke d ∈
      [SyncMessage.stroke ⟨"a", [], "red", 1⟩] → d.id ≠ "b" := by
    rintro d hd
    simp only [List.mem_singleton, SyncMessage.stroke.injEq] at hd
    subst hd
    decide
  exact ⟨hnew, (remote_update_unknown_noop _ "b" ⟨0, 0⟩ hnew).1⟩

end Jester
